import Mathlib

/-!
# Verification of the process-scheduler engine

Shallow embedding of the `process-scheduler` Rust crate.  The crate's
`src/scheduler/src/lib.rs` exposes three constructor functions
(`round_robin`, `priority_queue`, `cfs`) that build policy engines sharing
the same bookkeeping fields (`ready_processes`, `waiting_processes`,
`timeslice`/`cpu_time`, `minimum_remaining_timeslice`,
`remaining_timeslice`, `next_pid`, `sleep`, `sleep_time`).  The trait and
the policy implementations live in the crate's `scheduler`/`schedulers`
modules, which are not part of the published sources; their behaviour is
modelled from the design specification.
-/

namespace ProcScheduler

/-- Process identifier: a positive integer assigned in increasing order. -/
abbrev Pid := Nat

/-- System calls a running process can make (from the crate's public `Syscall` type). -/
inductive Syscall where
  | fork (priority : Nat)
  | exit
  | sleep (ticks : Nat)
  | wait (event : Nat)
  | signal (event : Nat)
  deriving DecidableEq, Repr

/-- Why the running process stopped (the crate's `StopReason`). -/
inductive StopReason where
  | syscall (call : Syscall) (remaining_timeslice : Nat)
  | expired
  deriving DecidableEq, Repr

/-- The answer to a `schedule()` request (the crate's `SchedulingDecision`). -/
inductive SchedulingDecision where
  | run (pid : Pid) (timeslice : Nat)
  | sleep (ticks : Nat)
  | wait
  | done
  | panic
  deriving DecidableEq, Repr

/-- The outcome reported back after `stop` (the crate's `SyscallResult`). -/
inductive SyscallResult where
  | success
  | newPid (pid : Pid)
  | noRunningProcess
  | unknownProcess
  | notWaiting
  deriving DecidableEq, Repr

/-- The three interchangeable scheduling policies of the crate. -/
inductive Policy where
  | roundRobin
  | priorityQueue
  | cfs
  deriving DecidableEq, Repr

/-- Per-process bookkeeping carried through the queues: the Pid, the
priority (used by the Priority Round Robin policy) and the accumulated
virtual runtime (used by CFS, initialised to 0 at creation). -/
structure ProcEntry where
  pid : Pid
  priority : Nat
  vruntime : Nat
  deriving DecidableEq, Repr

/-- Why a process sits in the waiting collection: a sleep countdown, or an
event it waits to be signalled. -/
inductive WaitKind where
  | sleeping (ticks : Nat)
  | onEvent (event : Nat)
  deriving DecidableEq, Repr

/-- The state of one scheduler engine.  The field names follow the struct
literals in `src/scheduler/src/lib.rs`; `quantum` stands for the
`timeslice` field of the Round Robin engines and for `cpu_time` of the CFS
engine.  `running` holds the at most one currently dispatched process;
the scheduler-level `remaining_timeslice` is its leftover quantum. -/
structure SchedState where
  policy : Policy
  quantum : Nat
  minimum_remaining_timeslice : Nat
  ready_processes : List ProcEntry
  waiting_processes : List (ProcEntry × WaitKind)
  running : Option ProcEntry
  remaining_timeslice : Nat
  next_pid : Pid
  sleep : Bool
  sleep_time : Nat
  deriving DecidableEq, Repr

/-- `round_robin` from `src/scheduler/src/lib.rs`: a freshly constructed
Round Robin engine with empty queues, `next_pid = 1`,
`remaining_timeslice = 0`, `sleep = false`, `sleep_time = 0`. -/
def round_robin (timeslice : Nat) (minimum_remaining_timeslice : Nat) : SchedState :=
  { policy := .roundRobin
    quantum := timeslice
    minimum_remaining_timeslice := minimum_remaining_timeslice
    ready_processes := []
    waiting_processes := []
    running := none
    remaining_timeslice := 0
    next_pid := 1
    sleep := false
    sleep_time := 0 }

/-- `priority_queue` from `src/scheduler/src/lib.rs`: a freshly constructed
Priority Round Robin engine, same initial bookkeeping as `round_robin`. -/
def priority_queue (timeslice : Nat) (minimum_remaining_timeslice : Nat) : SchedState :=
  { policy := .priorityQueue
    quantum := timeslice
    minimum_remaining_timeslice := minimum_remaining_timeslice
    ready_processes := []
    waiting_processes := []
    running := none
    remaining_timeslice := 0
    next_pid := 1
    sleep := false
    sleep_time := 0 }

/-- `cfs` from `src/scheduler/src/lib.rs`: a freshly constructed CFS engine
with the same initial bookkeeping; `quantum` holds `cpu_time`. -/
def cfs (cpu_time : Nat) (minimum_remaining_timeslice : Nat) : SchedState :=
  { policy := .cfs
    quantum := cpu_time
    minimum_remaining_timeslice := minimum_remaining_timeslice
    ready_processes := []
    waiting_processes := []
    running := none
    remaining_timeslice := 0
    next_pid := 1
    sleep := false
    sleep_time := 0 }

/-- Dispatch on the policy tag to the matching constructor of `lib.rs`. -/
def construct : Policy → Nat → Nat → SchedState
  | .roundRobin, q, m => round_robin q m
  | .priorityQueue, q, m => priority_queue q m
  | .cfs, q, m => cfs q m

/-- Modelled from the spec (the `new_process` operation of the missing
`schedulers` module): registers a new `Ready` process with a fresh,
strictly increasing Pid at the back of the ready collection; `vruntime`
is initialised to 0; never fails. -/
def new_process (s : SchedState) (priority : Nat) : Pid × SchedState :=
  (s.next_pid,
    { s with
      ready_processes :=
        s.ready_processes ++ [{ pid := s.next_pid, priority := priority, vruntime := 0 }]
      next_pid := s.next_pid + 1 })

/-- A syscall is blocking when it moves the caller to the waiting
collection (`Sleep` or `Wait`). -/
def blocking : Syscall → Bool
  | .sleep _ => true
  | .wait _ => true
  | _ => false

/-- First element of the list optimal for `key` under the boolean
comparison `keep` (`keep a b = true` keeps an earlier element with key `a`
over a later best with key `b`), together with the rest of the list in its
original order.  With `keep := (· ≤ ·)` this picks the first element of
minimal key; with `keep := fun a b => b ≤ a` the first of maximal key. -/
def pickBy (key : ProcEntry → Nat) (keep : Nat → Nat → Bool) :
    List ProcEntry → Option (ProcEntry × List ProcEntry)
  | [] => none
  | p :: rest =>
    match pickBy key keep rest with
    | none => some (p, [])
    | some (q, rest') =>
      if keep (key p) (key q) then some (p, rest) else some (q, p :: rest')

/-- Modelled from the spec: which ready process each policy selects.
Round Robin pops the FIFO front; Priority Round Robin takes the first
process of the highest priority (FIFO within the class); CFS takes the
first process of smallest `vruntime` (tie-break: earliest became-Ready). -/
def selectReady (s : SchedState) : Option (ProcEntry × List ProcEntry) :=
  match s.policy with
  | .roundRobin =>
    match s.ready_processes with
    | [] => none
    | p :: rest => some (p, rest)
  | .priorityQueue => pickBy (fun p => p.priority) (fun a b => decide (b ≤ a)) s.ready_processes
  | .cfs => pickBy (fun p => p.vruntime) (fun a b => decide (a ≤ b)) s.ready_processes

/-- Modelled from the spec: the quantum granted at dispatch.  Round Robin
policies grant the configured `timeslice`; CFS divides the configured
`cpu_time` fairly across the currently ready processes, recomputed at
every scheduling decision: `max(1, cpu_time / max(1, #ready))`. -/
def dispatchTimeslice (s : SchedState) : Nat :=
  match s.policy with
  | .cfs => max 1 (s.quantum / max 1 s.ready_processes.length)
  | _ => s.quantum

/-- Does this waiting entry wake once `limit` ticks have elapsed? -/
def wakesAt (limit : Nat) (pw : ProcEntry × WaitKind) : Bool :=
  match pw.2 with
  | .sleeping t => decide (t ≤ limit)
  | .onEvent _ => false

/-- Decrease a sleep countdown by the elapsed ticks; event waits are untouched. -/
def elapseKind (elapsed : Nat) : WaitKind → WaitKind
  | .sleeping t => .sleeping (t - elapsed)
  | .onEvent e => .onEvent e

/-- Modelled from the spec: after the engine returned `Sleep(t)` the
harness lets `t` ticks pass; on the next call the engine wakes every
sleeper whose countdown elapsed (moved to the back of the ready
collection, insertion order preserved) and advances the rest. -/
def wakeSleepers (s : SchedState) : SchedState :=
  if s.sleep then
    { s with
      ready_processes :=
        s.ready_processes ++ (s.waiting_processes.filter (wakesAt s.sleep_time)).map Prod.fst
      waiting_processes :=
        (s.waiting_processes.filter (fun pw => !wakesAt s.sleep_time pw)).map
          (fun pw => (pw.1, elapseKind s.sleep_time pw.2))
      sleep := false
      sleep_time := 0 }
  else s

/-- The ticks after which each sleeping process in the list wakes. -/
def sleepTicks : List (ProcEntry × WaitKind) → List Nat
  | [] => []
  | (_, .sleeping t) :: rest => t :: sleepTicks rest
  | (_, .onEvent _) :: rest => sleepTicks rest

/-- The minimum wake time across the waiting processes, when a sleeper exists. -/
def minSleep (l : List (ProcEntry × WaitKind)) : Option Nat :=
  match sleepTicks l with
  | [] => none
  | t :: ts => some (ts.foldl min t)

/-- Modelled from the spec: the decision once elapsed sleepers are awake.
If a process is already `Running` the same `Run` decision is returned
idempotently; otherwise the policy's selection from the ready collection
is dispatched with the policy's timeslice; with nothing ready,
`Sleep(min wake time)` when sleepers exist, `Panic` on a deadlock of event
waiters, `Done` when no process remains. -/
def scheduleCore (s : SchedState) : SchedulingDecision × SchedState :=
  match s.running with
  | some p => (.run p.pid s.remaining_timeslice, s)
  | none =>
    match selectReady s with
    | some (q, rest) =>
      (.run q.pid (dispatchTimeslice s),
        { s with
          ready_processes := rest
          running := some q
          remaining_timeslice := dispatchTimeslice s })
    | none =>
      match minSleep s.waiting_processes with
      | some t => (.sleep t, { s with sleep := true, sleep_time := t })
      | none =>
        if s.waiting_processes.isEmpty then (.done, s) else (.panic, s)

/-- Modelled from the spec (the `schedule` operation of the missing
`schedulers` module): wake the sleepers whose countdown elapsed, then
decide what runs next. -/
def schedule (s : SchedState) : SchedulingDecision × SchedState :=
  scheduleCore (wakeSleepers s)

/-- Does this waiting entry wait on event `e`? -/
def waitsOn (e : Nat) (pw : ProcEntry × WaitKind) : Bool :=
  match pw.2 with
  | .sleeping _ => false
  | .onEvent e' => decide (e' = e)

/-- Modelled from the spec (the minimum_remaining_timeslice rule): after a
non-blocking syscall, if the leftover quantum `rem` is at least
`minimum_remaining_timeslice` (inclusive) the caller keeps the CPU with
its leftover quantum; otherwise it is re-queued at the back of the ready
collection and the CPU is free for a fresh `schedule()` decision. -/
def requeueCaller (s : SchedState) (p : ProcEntry) (rem : Nat) : SchedState :=
  if s.minimum_remaining_timeslice ≤ rem then
    { s with running := some p, remaining_timeslice := rem }
  else
    { s with
      running := none
      remaining_timeslice := 0
      ready_processes := s.ready_processes ++ [p] }

/-- Modelled from the spec (the `stop` operation of the missing
`schedulers` module).  With nothing `Running` it returns
`NoRunningProcess` and changes nothing.  On `Expired` the caller is pushed
to the back of the ready collection (its `vruntime` grown by the consumed
quantum).  On a syscall the consumed ticks (`granted - rem`) grow
`vruntime`; `Fork` registers a child and answers `NewPid`; `Exit` drops
the caller; `Sleep`/`Wait` move it to the waiting collection; `Signal`
wakes every waiter on the event (back of ready, order preserved) and
answers `Success` even when nobody waited; non-blocking syscalls then
apply the minimum_remaining_timeslice rule to the caller. -/
def stop (s : SchedState) (reason : StopReason) : SyscallResult × SchedState :=
  match s.running with
  | none => (.noRunningProcess, s)
  | some p =>
    match reason with
    | .expired =>
      let p' := { p with vruntime := p.vruntime + s.remaining_timeslice }
      (.success,
        { s with
          running := none
          remaining_timeslice := 0
          ready_processes := s.ready_processes ++ [p'] })
    | .syscall call rem =>
      let p' := { p with vruntime := p.vruntime + (s.remaining_timeslice - rem) }
      match call with
      | .exit =>
        (.success, { s with running := none, remaining_timeslice := 0 })
      | .sleep t =>
        (.success,
          { s with
            running := none
            remaining_timeslice := 0
            waiting_processes := s.waiting_processes ++ [(p', .sleeping t)] })
      | .wait e =>
        (.success,
          { s with
            running := none
            remaining_timeslice := 0
            waiting_processes := s.waiting_processes ++ [(p', .onEvent e)] })
      | .fork prio =>
        let child : ProcEntry := { pid := s.next_pid, priority := prio, vruntime := 0 }
        (.newPid child.pid,
          requeueCaller
            { s with
              ready_processes := s.ready_processes ++ [child]
              next_pid := s.next_pid + 1 }
            p' rem)
      | .signal e =>
        (.success,
          requeueCaller
            { s with
              ready_processes :=
                s.ready_processes ++ (s.waiting_processes.filter (waitsOn e)).map Prod.fst
              waiting_processes := s.waiting_processes.filter (fun pw => !waitsOn e pw) }
            p' rem)

/-- One call of the facade surface. -/
inductive Call where
  | newProc (priority : Nat)
  | schedule
  | stop (reason : StopReason)
  deriving DecidableEq, Repr

/-- The value a call returns to the harness. -/
inductive Output where
  | pid (p : Pid)
  | decision (d : SchedulingDecision)
  | result (r : SyscallResult)
  deriving DecidableEq, Repr

/-- Apply one facade call to the state. -/
def step (s : SchedState) : Call → Output × SchedState
  | .newProc prio =>
    let r := new_process s prio
    (.pid r.1, r.2)
  | .schedule =>
    let r := schedule s
    (.decision r.1, r.2)
  | .stop reason =>
    let r := stop s reason
    (.result r.1, r.2)

/-- Replay a whole call sequence, collecting the returned values. -/
def run : SchedState → List Call → List Output × SchedState
  | s, [] => ([], s)
  | s, c :: cs =>
    let r := step s c
    let rs := run r.2 cs
    (r.1 :: rs.1, rs.2)

/-- The Pid an output hands to the harness: `new_process` returns a Pid
directly, `Fork` returns one through `SyscallResult::NewPid`. -/
def pidOf : Output → Option Pid
  | .pid p => some p
  | .result (.newPid p) => some p
  | _ => none

/-- All Pids handed out along an output sequence, in order. -/
def emittedPids (l : List Output) : List Pid :=
  l.filterMap pidOf

/-- The Pids currently in the ready collection, front to back. -/
def readyPids (s : SchedState) : List Pid :=
  s.ready_processes.map (fun p => p.pid)

/-- The Pids currently in the waiting collection, front to back. -/
def waitingPids (s : SchedState) : List Pid :=
  s.waiting_processes.map (fun pw => pw.1.pid)

/-- The Pid of the running process, when one exists. -/
def runningPids (s : SchedState) : List Pid :=
  match s.running with
  | none => []
  | some p => [p.pid]

/-- Every Pid the engine currently tracks: ready, waiting, running.
Terminated processes are dropped from the state, so this is exactly the
set of processes that are neither `Running`-slot-free nor terminated. -/
def allPids (s : SchedState) : List Pid :=
  readyPids s ++ waitingPids s ++ runningPids s

/-- The bookkeeping invariant: no Pid occurs twice across the ready,
waiting and running collections, and every tracked Pid is below
`next_pid`. -/
def Inv (s : SchedState) : Prop :=
  (allPids s).Nodup ∧ ∀ x ∈ allPids s, x < s.next_pid

/-- States reachable from a freshly constructed engine through the facade. -/
inductive Reachable : SchedState → Prop where
  | init (p : Policy) (q m : Nat) : Reachable (construct p q m)
  | step (s : SchedState) (c : Call) : Reachable s → Reachable (step s c).2

/-- The initial bookkeeping every constructor of `lib.rs` establishes:
empty queues, no running process, `next_pid = 1`,
`remaining_timeslice = 0`, sleep flag cleared, and a first `schedule()`
that observes no processes. -/
def InitialBookkeeping (s : SchedState) : Prop :=
  s.ready_processes = [] ∧ s.waiting_processes = [] ∧ s.running = none ∧
  s.next_pid = 1 ∧ s.remaining_timeslice = 0 ∧ s.sleep = false ∧
  s.sleep_time = 0 ∧ (schedule s).1 = .done

/-- Concrete state for exercising the minimum-remaining-timeslice rule:
one running process with leftover quantum 5 under threshold 2. -/
def sampleRunning : SchedState :=
  { round_robin 3 2 with
    running := some { pid := 1, priority := 0, vruntime := 0 }
    remaining_timeslice := 5
    next_pid := 2 }

/-- Concrete Round Robin state with two ready processes. -/
def sampleRRReady : SchedState :=
  { round_robin 2 0 with
    ready_processes :=
      [{ pid := 1, priority := 0, vruntime := 0 }, { pid := 2, priority := 0, vruntime := 0 }]
    next_pid := 3 }

/-- Concrete Round Robin state with one running and one ready process. -/
def sampleRRRunning : SchedState :=
  { round_robin 2 0 with
    ready_processes := [{ pid := 2, priority := 0, vruntime := 0 }]
    running := some { pid := 1, priority := 0, vruntime := 0 }
    remaining_timeslice := 2
    next_pid := 3 }

/-- Concrete CFS state with two ready processes of different vruntimes. -/
def sampleCFSReady : SchedState :=
  { cfs 4 0 with
    ready_processes :=
      [{ pid := 1, priority := 0, vruntime := 5 }, { pid := 2, priority := 0, vruntime := 3 }]
    next_pid := 3 }

/-- Concrete Priority Round Robin state with mixed priorities. -/
def samplePQReady : SchedState :=
  { priority_queue 2 0 with
    ready_processes :=
      [{ pid := 1, priority := 1, vruntime := 0 }, { pid := 2, priority := 4, vruntime := 0 },
        { pid := 3, priority := 4, vruntime := 0 }]
    next_pid := 4 }

/-- Concrete state with one running process and two event waiters. -/
def sampleSignal : SchedState :=
  { round_robin 3 2 with
    running := some { pid := 1, priority := 0, vruntime := 0 }
    remaining_timeslice := 3
    waiting_processes :=
      [({ pid := 2, priority := 0, vruntime := 0 }, .onEvent 7),
        ({ pid := 3, priority := 0, vruntime := 0 }, .sleeping 4),
        ({ pid := 4, priority := 0, vruntime := 0 }, .onEvent 7)]
    next_pid := 5 }

/-! ## Basic lemmas about the operations -/

theorem wakeSleepers_policy (s : SchedState) : (wakeSleepers s).policy = s.policy := by
  unfold wakeSleepers; split <;> rfl

theorem wakeSleepers_running (s : SchedState) : (wakeSleepers s).running = s.running := by
  unfold wakeSleepers; split <;> rfl

theorem wakeSleepers_remaining (s : SchedState) :
    (wakeSleepers s).remaining_timeslice = s.remaining_timeslice := by
  unfold wakeSleepers; split <;> rfl

theorem wakeSleepers_next_pid (s : SchedState) : (wakeSleepers s).next_pid = s.next_pid := by
  unfold wakeSleepers; split <;> rfl

theorem wakeSleepers_of_not_sleep (s : SchedState) (h : s.sleep = false) :
    wakeSleepers s = s := by
  unfold wakeSleepers; rw [h]; rfl

theorem requeueCaller_keep (s : SchedState) (p : ProcEntry) (rem : Nat)
    (h : s.minimum_remaining_timeslice ≤ rem) :
    requeueCaller s p rem = { s with running := some p, remaining_timeslice := rem } := by
  unfold requeueCaller; rw [if_pos h]

theorem requeueCaller_yield (s : SchedState) (p : ProcEntry) (rem : Nat)
    (h : ¬s.minimum_remaining_timeslice ≤ rem) :
    requeueCaller s p rem
      = { s with
          running := none
          remaining_timeslice := 0
          ready_processes := s.ready_processes ++ [p] } := by
  unfold requeueCaller; rw [if_neg h]

theorem stop_expired (s : SchedState) (p : ProcEntry) (hrun : s.running = some p) :
    stop s .expired
      = (.success,
          { s with
            running := none
            remaining_timeslice := 0
            ready_processes :=
              s.ready_processes ++ [{ p with vruntime := p.vruntime + s.remaining_timeslice }] }) := by
  unfold stop; rw [hrun]

theorem stop_exit (s : SchedState) (p : ProcEntry) (rem : Nat) (hrun : s.running = some p) :
    stop s (.syscall .exit rem)
      = (.success, { s with running := none, remaining_timeslice := 0 }) := by
  unfold stop; rw [hrun]

theorem stop_sleep (s : SchedState) (p : ProcEntry) (t rem : Nat) (hrun : s.running = some p) :
    stop s (.syscall (.sleep t) rem)
      = (.success,
          { s with
            running := none
            remaining_timeslice := 0
            waiting_processes :=
              s.waiting_processes
                ++ [({ p with vruntime := p.vruntime + (s.remaining_timeslice - rem) },
                  .sleeping t)] }) := by
  unfold stop; rw [hrun]

theorem stop_wait (s : SchedState) (p : ProcEntry) (e rem : Nat) (hrun : s.running = some p) :
    stop s (.syscall (.wait e) rem)
      = (.success,
          { s with
            running := none
            remaining_timeslice := 0
            waiting_processes :=
              s.waiting_processes
                ++ [({ p with vruntime := p.vruntime + (s.remaining_timeslice - rem) },
                  .onEvent e)] }) := by
  unfold stop; rw [hrun]

theorem stop_fork (s : SchedState) (p : ProcEntry) (prio rem : Nat) (hrun : s.running = some p) :
    stop s (.syscall (.fork prio) rem)
      = (.newPid s.next_pid,
          requeueCaller
            { s with
              ready_processes :=
                s.ready_processes ++ [{ pid := s.next_pid, priority := prio, vruntime := 0 }]
              next_pid := s.next_pid + 1 }
            { p with vruntime := p.vruntime + (s.remaining_timeslice - rem) } rem) := by
  unfold stop; rw [hrun]

theorem stop_signal (s : SchedState) (p : ProcEntry) (e rem : Nat) (hrun : s.running = some p) :
    stop s (.syscall (.signal e) rem)
      = (.success,
          requeueCaller
            { s with
              ready_processes :=
                s.ready_processes ++ (s.waiting_processes.filter (waitsOn e)).map Prod.fst
              waiting_processes := s.waiting_processes.filter (fun pw => !waitsOn e pw) }
            { p with vruntime := p.vruntime + (s.remaining_timeslice - rem) } rem) := by
  unfold stop; rw [hrun]

theorem schedule_running (s : SchedState) (p : ProcEntry) (h : s.running = some p) :
    (schedule s).1 = .run p.pid s.remaining_timeslice := by
  unfold schedule scheduleCore
  rw [wakeSleepers_running, h, wakeSleepers_remaining]

/-! ## C1, C8, C10 -/

/-- C1: two freshly constructed engines of the same policy and the same
configuration, fed the same call sequence, return identical sequences of
decisions, Pids and syscall results.  The engine is a pure state machine,
so the outputs are a function of policy, configuration and call list. -/
theorem c1_determinism (p₁ p₂ : Policy) (q₁ q₂ m₁ m₂ : Nat) (calls : List Call)
    (hp : p₁ = p₂) (hq : q₁ = q₂) (hm : m₁ = m₂) :
    (run (construct p₁ q₁ m₁) calls).1 = (run (construct p₂ q₂ m₂) calls).1 := by
  subst hp; subst hq; subst hm; rfl

/-- C1 witness: replaying a concrete trace on two CFS engines built with
the same configuration yields the same outputs. -/
theorem c1_determinism_witness :
    (run (construct .cfs 4 1) [.newProc 0, .newProc 0, .schedule]).1
      = (run (construct .cfs 4 1) [.newProc 0, .newProc 0, .schedule]).1 :=
  c1_determinism .cfs .cfs 4 4 1 1 [.newProc 0, .newProc 0, .schedule] rfl rfl rfl

/-- C8: calling `stop` with any reason while no process is running returns
`NoRunningProcess` and leaves the whole state (queues, process table,
`next_pid`, timing fields) unchanged. -/
theorem c8_stop_no_running (s : SchedState) (reason : StopReason) (h : s.running = none) :
    stop s reason = (.noRunningProcess, s) := by
  unfold stop; rw [h]

/-- C8 witness: `stop(Expired)` on a fresh Round Robin engine. -/
theorem c8_stop_no_running_witness :
    stop (round_robin 2 0) .expired = (.noRunningProcess, round_robin 2 0) :=
  c8_stop_no_running (round_robin 2 0) .expired rfl

/-- C10: all three constructors of `lib.rs` set up the same initial
bookkeeping — empty ready and waiting collections, nothing running,
`next_pid = 1`, `remaining_timeslice = 0`, sleep flag cleared with
`sleep_time = 0` — and the first `schedule()` on the untouched instance
observes no processes (it returns `Done`). -/
theorem c10_initial_state (ts cpu m : Nat) :
    InitialBookkeeping (round_robin ts m) ∧ InitialBookkeeping (priority_queue ts m) ∧
      InitialBookkeeping (cfs cpu m) :=
  ⟨⟨rfl, rfl, rfl, rfl, rfl, rfl, rfl, rfl⟩,
    ⟨rfl, rfl, rfl, rfl, rfl, rfl, rfl, rfl⟩,
    ⟨rfl, rfl, rfl, rfl, rfl, rfl, rfl, rfl⟩⟩

/-! ## C2, C3, C9 -/

theorem requeueCaller_rule (s₁ : SchedState) (p' : ProcEntry) (rem m : Nat)
    (hm : s₁.minimum_remaining_timeslice = m) :
    if m ≤ rem then
      (requeueCaller s₁ p' rem).running = some p' ∧
      (requeueCaller s₁ p' rem).remaining_timeslice = rem ∧
      (schedule (requeueCaller s₁ p' rem)).1 = .run p'.pid rem
    else
      (requeueCaller s₁ p' rem).running = none ∧
      (requeueCaller s₁ p' rem).ready_processes.getLast? = some p' := by
  subst hm
  by_cases h : s₁.minimum_remaining_timeslice ≤ rem
  · rw [if_pos h, requeueCaller_keep s₁ p' rem h]
    exact ⟨rfl, rfl, schedule_running _ p' rfl⟩
  · rw [if_neg h, requeueCaller_yield s₁ p' rem h]
    exact ⟨rfl, List.getLast?_concat _⟩

/-- C2: for every policy, when the running process stops with a syscall
that is neither `Exit` nor blocking, the minimum_remaining_timeslice rule
decides inclusively: with `remaining_timeslice ≥ minimum` the very same
process keeps the CPU with its leftover quantum (and the next `schedule()`
re-selects it with that quantum); otherwise the CPU is freed and the
caller re-queued at the back of the ready collection, so a fresh decision
is computed from the ready collection. -/
theorem c2_min_remaining_rule (s : SchedState) (p : ProcEntry) (call : Syscall) (rem : Nat)
    (hrun : s.running = some p) (hexit : call ≠ .exit) (hblock : blocking call = false) :
    if s.minimum_remaining_timeslice ≤ rem then
      ∃ p', (stop s (.syscall call rem)).2.running = some p' ∧ p'.pid = p.pid ∧
        (stop s (.syscall call rem)).2.remaining_timeslice = rem ∧
        (schedule (stop s (.syscall call rem)).2).1 = .run p.pid rem
    else
      (stop s (.syscall call rem)).2.running = none ∧
      ∃ p', p'.pid = p.pid ∧
        (stop s (.syscall call rem)).2.ready_processes.getLast? = some p' := by
  cases call with
  | exit => exact absurd rfl hexit
  | sleep t => simp [blocking] at hblock
  | wait e => simp [blocking] at hblock
  | fork prio =>
    rw [stop_fork s p prio rem hrun]
    have h := requeueCaller_rule
      { s with
        ready_processes :=
          s.ready_processes ++ [{ pid := s.next_pid, priority := prio, vruntime := 0 }]
        next_pid := s.next_pid + 1 }
      { p with vruntime := p.vruntime + (s.remaining_timeslice - rem) }
      rem s.minimum_remaining_timeslice rfl
    by_cases hm : s.minimum_remaining_timeslice ≤ rem
    · rw [if_pos hm] at h ⊢
      exact ⟨_, h.1, rfl, h.2.1, h.2.2⟩
    · rw [if_neg hm] at h ⊢
      exact ⟨h.1,
        ⟨{ p with vruntime := p.vruntime + (s.remaining_timeslice - rem) }, rfl, h.2⟩⟩
  | signal e =>
    rw [stop_signal s p e rem hrun]
    have h := requeueCaller_rule
      { s with
        ready_processes :=
          s.ready_processes ++ (s.waiting_processes.filter (waitsOn e)).map Prod.fst
        waiting_processes := s.waiting_processes.filter (fun pw => !waitsOn e pw) }
      { p with vruntime := p.vruntime + (s.remaining_timeslice - rem) }
      rem s.minimum_remaining_timeslice rfl
    by_cases hm : s.minimum_remaining_timeslice ≤ rem
    · rw [if_pos hm] at h ⊢
      exact ⟨_, h.1, rfl, h.2.1, h.2.2⟩
    · rw [if_neg hm] at h ⊢
      exact ⟨h.1,
        ⟨{ p with vruntime := p.vruntime + (s.remaining_timeslice - rem) }, rfl, h.2⟩⟩

/-- C2 witness: `Signal` with leftover quantum 2 equal to the configured
threshold 2 — the inclusive boundary — keeps Pid 1 running. -/
theorem c2_min_remaining_rule_witness :
    if sampleRunning.minimum_remaining_timeslice ≤ 2 then
      ∃ p', (stop sampleRunning (.syscall (.signal 0) 2)).2.running = some p' ∧
        p'.pid = ProcEntry.pid { pid := 1, priority := 0, vruntime := 0 } ∧
        (stop sampleRunning (.syscall (.signal 0) 2)).2.remaining_timeslice = 2 ∧
        (schedule (stop sampleRunning (.syscall (.signal 0) 2)).2).1
          = .run (ProcEntry.pid { pid := 1, priority := 0, vruntime := 0 }) 2
    else
      (stop sampleRunning (.syscall (.signal 0) 2)).2.running = none ∧
      ∃ p', p'.pid = ProcEntry.pid { pid := 1, priority := 0, vruntime := 0 } ∧
        (stop sampleRunning (.syscall (.signal 0) 2)).2.ready_processes.getLast? = some p' :=
  c2_min_remaining_rule sampleRunning { pid := 1, priority := 0, vruntime := 0 }
    (.signal 0) 2 rfl (by decide) rfl

/-- C3: under Round Robin, `schedule()` on a free CPU pops the front of
the FIFO ready queue, grants the full configured timeslice, marks the
process running and returns `Run{pid, timeslice}`; `stop(Expired)` on the
running process pushes it to the back of the ready queue (the full
timeslice is granted afresh at its next dispatch, as the first conjunct
shows for every dispatch). -/
theorem c3_round_robin_fifo (s s₂ : SchedState) (p q : ProcEntry) (rest : List ProcEntry)
    (hpol : s.policy = .roundRobin) (hsleep : s.sleep = false)
    (hrun : s.running = none) (hready : s.ready_processes = p :: rest)
    (_hpol₂ : s₂.policy = .roundRobin) (hrun₂ : s₂.running = some q) :
    (schedule s).1 = .run p.pid s.quantum ∧
    (schedule s).2.running = some p ∧
    (schedule s).2.remaining_timeslice = s.quantum ∧
    (schedule s).2.ready_processes = rest ∧
    (stop s₂ .expired).1 = .success ∧
    (stop s₂ .expired).2.running = none ∧
    ∃ q', q'.pid = q.pid ∧ (stop s₂ .expired).2.ready_processes = s₂.ready_processes ++ [q'] := by
  have hsel : selectReady s = some (p, rest) := by
    unfold selectReady; rw [hpol, hready]
  have hts : dispatchTimeslice s = s.quantum := by
    unfold dispatchTimeslice; rw [hpol]
  have hs : schedule s
      = (.run p.pid s.quantum,
          { s with ready_processes := rest, running := some p, remaining_timeslice := s.quantum }) := by
    unfold schedule scheduleCore
    rw [wakeSleepers_of_not_sleep s hsleep, hrun, hsel, hts]
  rw [hs, stop_expired s₂ q hrun₂]
  exact ⟨rfl, rfl, rfl, rfl, rfl, rfl,
    ⟨{ q with vruntime := q.vruntime + s₂.remaining_timeslice }, rfl, rfl⟩⟩

/-- C3 witness: quantum 2, ready queue `[p1, p2]`: `schedule()` returns
`Run{1,2}` and `stop(Expired)` on a state running p1 with p2 ready puts
p1 at the back. -/
theorem c3_round_robin_fifo_witness :
    (schedule sampleRRReady).1
        = .run (ProcEntry.pid { pid := 1, priority := 0, vruntime := 0 }) sampleRRReady.quantum ∧
    (schedule sampleRRReady).2.running = some { pid := 1, priority := 0, vruntime := 0 } ∧
    (schedule sampleRRReady).2.remaining_timeslice = sampleRRReady.quantum ∧
    (schedule sampleRRReady).2.ready_processes = [{ pid := 2, priority := 0, vruntime := 0 }] ∧
    (stop sampleRRRunning .expired).1 = .success ∧
    (stop sampleRRRunning .expired).2.running = none ∧
    ∃ q', q'.pid = ProcEntry.pid { pid := 1, priority := 0, vruntime := 0 } ∧
      (stop sampleRRRunning .expired).2.ready_processes
        = sampleRRRunning.ready_processes ++ [q'] :=
  c3_round_robin_fifo sampleRRReady sampleRRRunning
    { pid := 1, priority := 0, vruntime := 0 } { pid := 1, priority := 0, vruntime := 0 }
    [{ pid := 2, priority := 0, vruntime := 0 }] rfl rfl rfl rfl rfl rfl

/-- C9: a `Signal(event)` syscall from the running process moves every
process waiting on that event to the back of the ready collection in
their original relative order (the caller itself may follow them when the
minimum_remaining_timeslice rule re-queues it), removes exactly those
processes from the waiting collection, and returns `Success` even when
nobody was waiting on the event. -/
theorem c9_signal_wakes_all (s : SchedState) (p : ProcEntry) (e rem : Nat)
    (hrun : s.running = some p) :
    (stop s (.syscall (.signal e) rem)).1 = .success ∧
    (stop s (.syscall (.signal e) rem)).2.waiting_processes
      = s.waiting_processes.filter (fun pw => !waitsOn e pw) ∧
    ∃ t, ((stop s (.syscall (.signal e) rem)).2.ready_processes
        = s.ready_processes ++ (s.waiting_processes.filter (waitsOn e)).map Prod.fst ++ t) ∧
      (t = [] ∨ ∃ q, q.pid = p.pid ∧ t = [q]) := by
  rw [stop_signal s p e rem hrun]
  unfold requeueCaller
  split
  · exact ⟨rfl, rfl, [], by simp, Or.inl rfl⟩
  · exact ⟨rfl, rfl, [{ p with vruntime := p.vruntime + (s.remaining_timeslice - rem) }],
      by simp,
      Or.inr ⟨{ p with vruntime := p.vruntime + (s.remaining_timeslice - rem) }, rfl, rfl⟩⟩

/-- C9 witness: Pids 2 and 4 wait on event 7, Pid 3 sleeps; `Signal(7)`
wakes 2 and 4 in order, keeps the sleeper waiting, and returns Success. -/
theorem c9_signal_wakes_all_witness :
    (stop sampleSignal (.syscall (.signal 7) 3)).1 = .success ∧
    (stop sampleSignal (.syscall (.signal 7) 3)).2.waiting_processes
      = sampleSignal.waiting_processes.filter (fun pw => !waitsOn 7 pw) ∧
    ∃ t, ((stop sampleSignal (.syscall (.signal 7) 3)).2.ready_processes
        = sampleSignal.ready_processes
          ++ (sampleSignal.waiting_processes.filter (waitsOn 7)).map Prod.fst ++ t) ∧
      (t = [] ∨ ∃ q, q.pid = ProcEntry.pid { pid := 1, priority := 0, vruntime := 0 } ∧ t = [q]) :=
  c9_signal_wakes_all sampleSignal { pid := 1, priority := 0, vruntime := 0 } 7 3 rfl

/-! ## Selection machinery: C4, C5 -/

theorem decide_le_trans (a b c : Nat) (h1 : decide (a ≤ b) = true) (h2 : decide (b ≤ c) = true) :
    decide (a ≤ c) = true := by
  simp only [decide_eq_true_eq] at *
  omega

theorem decide_le_total (a b : Nat) (h : decide (a ≤ b) = false) : decide (b ≤ a) = true := by
  simp only [decide_eq_false_iff_not, decide_eq_true_eq] at *
  omega

theorem pickBy_cons_none (key : ProcEntry → Nat) (keep : Nat → Nat → Bool)
    (p : ProcEntry) (rest : List ProcEntry) (hr : pickBy key keep rest = none) :
    pickBy key keep (p :: rest) = some (p, []) := by
  simp only [pickBy, hr]

theorem pickBy_cons_some (key : ProcEntry → Nat) (keep : Nat → Nat → Bool)
    (p : ProcEntry) (rest : List ProcEntry) (q : ProcEntry) (rest' : List ProcEntry)
    (hr : pickBy key keep rest = some (q, rest')) :
    pickBy key keep (p :: rest)
      = if keep (key p) (key q) then some (p, rest) else some (q, p :: rest') := by
  simp only [pickBy, hr]

theorem pickBy_eq_none (key : ProcEntry → Nat) (keep : Nat → Nat → Bool) :
    ∀ l : List ProcEntry, pickBy key keep l = none → l = [] := by
  intro l h
  cases l with
  | nil => rfl
  | cons p rest =>
    cases hr : pickBy key keep rest with
    | none => rw [pickBy_cons_none key keep p rest hr] at h; simp at h
    | some qr =>
      obtain ⟨q, rest'⟩ := qr
      rw [pickBy_cons_some key keep p rest q rest' hr] at h
      split at h <;> simp at h

theorem pickBy_perm (key : ProcEntry → Nat) (keep : Nat → Nat → Bool) :
    ∀ (l : List ProcEntry) (q : ProcEntry) (rest : List ProcEntry),
      pickBy key keep l = some (q, rest) → List.Perm (q :: rest) l := by
  intro l
  induction l with
  | nil => intro q rest h; simp [pickBy] at h
  | cons p r ih =>
    intro q rest h
    cases hr : pickBy key keep r with
    | none =>
      rw [pickBy_cons_none key keep p r hr] at h
      obtain rfl : r = [] := pickBy_eq_none key keep r hr
      simp only [Option.some.injEq, Prod.mk.injEq] at h
      obtain ⟨rfl, rfl⟩ := h
      exact List.Perm.refl _
    | some qr =>
      obtain ⟨q', rest'⟩ := qr
      rw [pickBy_cons_some key keep p r q' rest' hr] at h
      split at h <;> simp only [Option.some.injEq, Prod.mk.injEq] at h <;>
        obtain ⟨rfl, rfl⟩ := h
      · exact List.Perm.refl _
      · exact (List.Perm.swap _ _ _).trans (List.Perm.cons p (ih _ _ hr))

theorem pickBy_split (key : ProcEntry → Nat) (keep : Nat → Nat → Bool)
    (htrans : ∀ a b c, keep a b = true → keep b c = true → keep a c = true)
    (htotal : ∀ a b, keep a b = false → keep b a = true) :
    ∀ (l : List ProcEntry) (q : ProcEntry) (rest : List ProcEntry),
      pickBy key keep l = some (q, rest) →
      ∃ l₁ l₂, l = l₁ ++ q :: l₂ ∧ rest = l₁ ++ l₂ ∧
        (∀ x ∈ l₁, keep (key x) (key q) = false) ∧
        (∀ x ∈ l₂, keep (key q) (key x) = true) := by
  intro l
  induction l with
  | nil => intro q rest h; simp [pickBy] at h
  | cons p r ih =>
    intro q rest h
    cases hr : pickBy key keep r with
    | none =>
      rw [pickBy_cons_none key keep p r hr] at h
      obtain rfl : r = [] := pickBy_eq_none key keep r hr
      simp only [Option.some.injEq, Prod.mk.injEq] at h
      obtain ⟨rfl, rfl⟩ := h
      exact ⟨[], [], rfl, rfl, by simp, by simp⟩
    | some qr =>
      obtain ⟨q', rest'⟩ := qr
      rw [pickBy_cons_some key keep p r q' rest' hr] at h
      obtain ⟨r₁, r₂, hsplit, hrest, h₁, h₂⟩ := ih q' rest' hr
      by_cases hk : keep (key p) (key q') = true
      · rw [if_pos hk] at h
        simp only [Option.some.injEq, Prod.mk.injEq] at h
        obtain ⟨rfl, rfl⟩ := h
        refine ⟨[], r, rfl, rfl, by simp, ?_⟩
        intro x hx
        rw [hsplit] at hx
        rcases List.mem_append.mp hx with hx1 | hx2
        · exact htrans _ _ _ hk (htotal _ _ (h₁ x hx1))
        · rcases List.mem_cons.mp hx2 with rfl | hx2
          · exact hk
          · exact htrans _ _ _ hk (h₂ x hx2)
      · rw [if_neg hk] at h
        simp only [Option.some.injEq, Prod.mk.injEq] at h
        obtain ⟨rfl, rfl⟩ := h
        have hk' : keep (key p) (key q') = false := by
          simpa using hk
        refine ⟨p :: r₁, r₂, by rw [hsplit]; rfl, by rw [hrest]; rfl, ?_, h₂⟩
        intro x hx
        rcases List.mem_cons.mp hx with rfl | hx1
        · exact hk'
        · exact h₁ x hx1

theorem selectReady_eq_none (s : SchedState) (h : selectReady s = none) :
    s.ready_processes = [] := by
  unfold selectReady at h
  cases hp : s.policy <;> rw [hp] at h
  · cases hr : s.ready_processes with
    | nil => rfl
    | cons a l => rw [hr] at h; simp at h
  · exact pickBy_eq_none _ _ _ h
  · exact pickBy_eq_none _ _ _ h

theorem selectReady_perm (s : SchedState) (q : ProcEntry) (rest : List ProcEntry)
    (h : selectReady s = some (q, rest)) : List.Perm (q :: rest) s.ready_processes := by
  unfold selectReady at h
  cases hp : s.policy <;> rw [hp] at h
  · cases hr : s.ready_processes with
    | nil => rw [hr] at h; simp at h
    | cons a l =>
      rw [hr] at h
      simp only [Option.some.injEq, Prod.mk.injEq] at h
      obtain ⟨rfl, rfl⟩ := h
      exact List.Perm.refl _
  · exact pickBy_perm _ _ _ _ _ h
  · exact pickBy_perm _ _ _ _ _ h

theorem scheduleCore_dispatch (s : SchedState) (q : ProcEntry) (rest : List ProcEntry)
    (hrun : s.running = none) (hsel : selectReady s = some (q, rest)) :
    scheduleCore s
      = (.run q.pid (dispatchTimeslice s),
          { s with
            ready_processes := rest
            running := some q
            remaining_timeslice := dispatchTimeslice s }) := by
  unfold scheduleCore
  rw [hrun, hsel]

theorem scheduleCore_nosel (s : SchedState) (hrun : s.running = none)
    (hsel : selectReady s = none) :
    scheduleCore s
      = match minSleep s.waiting_processes with
        | some t => (.sleep t, { s with sleep := true, sleep_time := t })
        | none => if s.waiting_processes.isEmpty then (.done, s) else (.panic, s) := by
  unfold scheduleCore
  rw [hrun, hsel]

/-- C4: under CFS with a free CPU, `schedule()` dispatches the ready
process of smallest vruntime (earliest became-Ready on ties: everything
before it in the ready list has strictly larger vruntime) and grants
`max(1, cpu_time / max(1, #ready))`, the quotient being recomputed from
the number of ready processes at this very decision. -/
theorem c4_cfs_selection (s : SchedState)
    (hpol : s.policy = .cfs) (hsleep : s.sleep = false) (hrun : s.running = none)
    (hne : s.ready_processes ≠ []) :
    ∃ q l₁ l₂,
      s.ready_processes = l₁ ++ q :: l₂ ∧
      (∀ x ∈ l₁, q.vruntime < x.vruntime) ∧
      (∀ x ∈ l₂, q.vruntime ≤ x.vruntime) ∧
      (schedule s).1 = .run q.pid (max 1 (s.quantum / max 1 s.ready_processes.length)) := by
  have hw : wakeSleepers s = s := wakeSleepers_of_not_sleep s hsleep
  cases hsel : selectReady s with
  | none => exact absurd (selectReady_eq_none s hsel) hne
  | some qr =>
    obtain ⟨q, rest⟩ := qr
    have hpick : pickBy (fun p => p.vruntime) (fun a b => decide (a ≤ b))
        s.ready_processes = some (q, rest) := by
      unfold selectReady at hsel
      rw [hpol] at hsel
      exact hsel
    obtain ⟨l₁, l₂, hsplit, hrest, h₁, h₂⟩ :=
      pickBy_split _ _ decide_le_trans decide_le_total _ _ _ hpick
    refine ⟨q, l₁, l₂, hsplit, ?_, ?_, ?_⟩
    · intro x hx
      have hx' := h₁ x hx
      simp only [decide_eq_false_iff_not] at hx'
      omega
    · intro x hx
      have hx' := h₂ x hx
      simpa using hx'
    · unfold schedule
      rw [hw, scheduleCore_dispatch s q rest hrun hsel]
      unfold dispatchTimeslice
      rw [hpol]

/-- C4 witness: `cpu_time = 4`, ready Pids 1 (vruntime 5) and 2
(vruntime 3): the dispatch picks Pid 2 with timeslice `max(1, 4/2) = 2`. -/
theorem c4_cfs_selection_witness :
    ∃ q l₁ l₂,
      sampleCFSReady.ready_processes = l₁ ++ q :: l₂ ∧
      (∀ x ∈ l₁, q.vruntime < x.vruntime) ∧
      (∀ x ∈ l₂, q.vruntime ≤ x.vruntime) ∧
      (schedule sampleCFSReady).1
        = .run q.pid
            (max 1 (sampleCFSReady.quantum / max 1 sampleCFSReady.ready_processes.length)) :=
  c4_cfs_selection sampleCFSReady rfl rfl rfl (by decide)

/-- C5: under Priority Round Robin with a free CPU, whenever `schedule()`
returns a `Run` decision the dispatched process is a ready process of
maximal priority (so a lower-priority ready process is never selected
while a higher-priority one is ready), and it is the first of its
priority class in FIFO order (everything before it has strictly lower
priority). -/
theorem c5_priority_precedence (s : SchedState) (pid ts : Nat)
    (hpol : s.policy = .priorityQueue) (hsleep : s.sleep = false) (hrun : s.running = none)
    (hdec : (schedule s).1 = .run pid ts) :
    ∃ q l₁ l₂, q.pid = pid ∧ s.ready_processes = l₁ ++ q :: l₂ ∧
      (∀ x ∈ s.ready_processes, x.priority ≤ q.priority) ∧
      (∀ x ∈ l₁, x.priority < q.priority) := by
  have hw : wakeSleepers s = s := wakeSleepers_of_not_sleep s hsleep
  cases hsel : selectReady s with
  | none =>
    exfalso
    unfold schedule at hdec
    rw [hw, scheduleCore_nosel s hrun hsel] at hdec
    cases hms : minSleep s.waiting_processes <;> rw [hms] at hdec
    · cases hemp : s.waiting_processes.isEmpty <;> simp [hemp] at hdec
    · simp at hdec
  | some qr =>
    obtain ⟨q, rest⟩ := qr
    have hpick : pickBy (fun p => p.priority) (fun a b => decide (b ≤ a))
        s.ready_processes = some (q, rest) := by
      unfold selectReady at hsel
      rw [hpol] at hsel
      exact hsel
    obtain ⟨l₁, l₂, hsplit, hrest, h₁, h₂⟩ :=
      pickBy_split _ _ (fun a b c h1 h2 => decide_le_trans c b a h2 h1)
        (fun a b h => decide_le_total b a h) _ _ _ hpick
    have hq : q.pid = pid := by
      unfold schedule at hdec
      rw [hw, scheduleCore_dispatch s q rest hrun hsel] at hdec
      simp only [SchedulingDecision.run.injEq] at hdec
      exact hdec.1
    refine ⟨q, l₁, l₂, hq, hsplit, ?_, ?_⟩
    · intro x hx
      rw [hsplit] at hx
      rcases List.mem_append.mp hx with hx1 | hx2
      · have hx' := h₁ x hx1
        simp only [decide_eq_false_iff_not] at hx'
        omega
      · rcases List.mem_cons.mp hx2 with rfl | hx2
        · exact Nat.le_refl _
        · have hx' := h₂ x hx2
          simpa using hx'
    · intro x hx
      have hx' := h₁ x hx
      simp only [decide_eq_false_iff_not] at hx'
      omega

/-- C5 witness: priorities `[1, 4, 4]` for Pids 1, 2, 3: `schedule()`
dispatches Pid 2, the first process of the top priority class. -/
theorem c5_priority_precedence_witness :
    ∃ q l₁ l₂, q.pid = 2 ∧ samplePQReady.ready_processes = l₁ ++ q :: l₂ ∧
      (∀ x ∈ samplePQReady.ready_processes, x.priority ≤ q.priority) ∧
      (∀ x ∈ l₁, x.priority < q.priority) :=
  c5_priority_precedence samplePQReady 2 2 rfl rfl rfl (by decide)

/-! ## Pid accounting: C6 -/

theorem stop_none (s : SchedState) (reason : StopReason) (h : s.running = none) :
    stop s reason = (.noRunningProcess, s) := by
  unfold stop; rw [h]

theorem scheduleCore_running (s : SchedState) (p : ProcEntry) (h : s.running = some p) :
    scheduleCore s = (.run p.pid s.remaining_timeslice, s) := by
  unfold scheduleCore; rw [h]

theorem scheduleCore_next_pid (s : SchedState) : (scheduleCore s).2.next_pid = s.next_pid := by
  unfold scheduleCore
  split
  · rfl
  · split
    · rfl
    · split
      · rfl
      · split <;> rfl

theorem schedule_next_pid (s : SchedState) : (schedule s).2.next_pid = s.next_pid := by
  unfold schedule
  rw [scheduleCore_next_pid, wakeSleepers_next_pid]

theorem requeueCaller_next_pid (t : SchedState) (p : ProcEntry) (rem : Nat) :
    (requeueCaller t p rem).next_pid = t.next_pid := by
  unfold requeueCaller; split <;> rfl

theorem stop_pids (s : SchedState) (reason : StopReason) :
    (pidOf (.result (stop s reason).1) = none ∧ (stop s reason).2.next_pid = s.next_pid) ∨
    (pidOf (.result (stop s reason).1) = some s.next_pid ∧
      (stop s reason).2.next_pid = s.next_pid + 1) := by
  cases hrun : s.running with
  | none => rw [stop_none s reason hrun]; left; exact ⟨rfl, rfl⟩
  | some p =>
    cases reason with
    | expired => rw [stop_expired s p hrun]; left; exact ⟨rfl, rfl⟩
    | syscall call rem =>
      cases call with
      | exit => rw [stop_exit s p rem hrun]; left; exact ⟨rfl, rfl⟩
      | sleep t => rw [stop_sleep s p t rem hrun]; left; exact ⟨rfl, rfl⟩
      | wait e => rw [stop_wait s p e rem hrun]; left; exact ⟨rfl, rfl⟩
      | fork prio =>
        rw [stop_fork s p prio rem hrun]
        right
        exact ⟨rfl, by rw [requeueCaller_next_pid]⟩
      | signal e =>
        rw [stop_signal s p e rem hrun]
        left
        exact ⟨rfl, by rw [requeueCaller_next_pid]⟩

theorem step_pids (s : SchedState) (c : Call) :
    (pidOf (step s c).1 = none ∧ (step s c).2.next_pid = s.next_pid) ∨
    (pidOf (step s c).1 = some s.next_pid ∧ (step s c).2.next_pid = s.next_pid + 1) := by
  cases c with
  | newProc prio => right; exact ⟨rfl, rfl⟩
  | schedule => left; exact ⟨rfl, schedule_next_pid s⟩
  | stop reason => exact stop_pids s reason

theorem run_pids (calls : List Call) :
    ∀ s : SchedState, ∃ k, emittedPids (run s calls).1 = List.range' s.next_pid k := by
  induction calls with
  | nil => intro s; exact ⟨0, rfl⟩
  | cons c cs ih =>
    intro s
    rcases step_pids s c with ⟨h1, h2⟩ | ⟨h1, h2⟩
    · obtain ⟨k, hk⟩ := ih (step s c).2
      refine ⟨k, ?_⟩
      simp only [run, emittedPids, List.filterMap_cons, h1]
      simp only [emittedPids] at hk
      rw [hk, h2]
    · obtain ⟨k, hk⟩ := ih (step s c).2
      refine ⟨k + 1, ?_⟩
      simp only [run, emittedPids, List.filterMap_cons, h1]
      simp only [emittedPids] at hk
      rw [hk, h2, List.range'_succ]

theorem range'_pairwise_lt (s n : Nat) : List.Pairwise (· < ·) (List.range' s n) := by
  induction n generalizing s with
  | zero => exact List.Pairwise.nil
  | succ n ih =>
    rw [List.range'_succ]
    refine List.Pairwise.cons ?_ (ih (s + 1))
    intro x hx
    obtain ⟨i, hi, rfl⟩ := List.mem_range'.mp hx
    omega

/-- C6: over any call sequence on a freshly constructed engine of any
policy, the Pids handed out by `new_process` and by `Fork` (through
`SyscallResult::NewPid`) are exactly `1, 2, 3, …` in order: strictly
increasing positive integers starting at 1, never repeated or reused. -/
theorem c6_pid_monotonic (p : Policy) (q m : Nat) (calls : List Call) :
    emittedPids (run (construct p q m) calls).1
      = List.range' 1 (emittedPids (run (construct p q m) calls).1).length ∧
    List.Pairwise (· < ·) (emittedPids (run (construct p q m) calls).1) ∧
    ∀ x ∈ emittedPids (run (construct p q m) calls).1, 0 < x := by
  obtain ⟨k, hk⟩ := run_pids calls (construct p q m)
  have h1 : (construct p q m).next_pid = 1 := by cases p <;> rfl
  rw [h1] at hk
  refine ⟨?_, ?_, ?_⟩
  · rw [hk, List.length_range']
  · rw [hk]; exact range'_pairwise_lt 1 k
  · rw [hk]
    intro x hx
    obtain ⟨i, hi, h2⟩ := List.mem_range'.mp hx
    exact h2 ▸ Nat.add_pos_left Nat.one_pos _

/-! ## The bookkeeping invariant: C7 -/

theorem perm_snoc_append {α : Type} (a : α) (l₁ l₂ : List α) :
    List.Perm ((l₁ ++ [a]) ++ l₂) (a :: (l₁ ++ l₂)) := by
  have h : (l₁ ++ [a]) ++ l₂ = l₁ ++ (a :: l₂) := by simp
  rw [h]
  exact List.perm_middle

theorem perm_append_snoc {α : Type} (a : α) (l₁ l₂ : List α) :
    List.Perm (l₁ ++ (l₂ ++ [a])) (a :: (l₁ ++ l₂)) := by
  have h : l₁ ++ (l₂ ++ [a]) = (l₁ ++ l₂) ++ [a] := by simp
  rw [h]
  exact List.perm_append_singleton a _

theorem Inv_of_perm {s s' : SchedState} (hperm : List.Perm (allPids s') (allPids s))
    (hnp : s.next_pid ≤ s'.next_pid) (h : Inv s) : Inv s' := by
  obtain ⟨hnd, hbound⟩ := h
  refine ⟨hperm.symm.nodup hnd, ?_⟩
  intro x hx
  exact lt_of_lt_of_le (hbound x (hperm.mem_iff.mp hx)) hnp

theorem Inv_of_cons_perm {s s' : SchedState}
    (hperm : List.Perm (allPids s') (s.next_pid :: allPids s))
    (hnp : s'.next_pid = s.next_pid + 1) (h : Inv s) : Inv s' := by
  obtain ⟨hnd, hbound⟩ := h
  have hfresh : s.next_pid ∉ allPids s := fun hmem => lt_irrefl _ (hbound _ hmem)
  refine ⟨hperm.symm.nodup (List.nodup_cons.mpr ⟨hfresh, hnd⟩), ?_⟩
  intro x hx
  rcases List.mem_cons.mp (hperm.mem_iff.mp hx) with rfl | hmem
  · exact hnp ▸ Nat.lt_succ_self _
  · exact hnp ▸ Nat.lt_succ_of_lt (hbound x hmem)

theorem Inv_of_sublist {s s' : SchedState}
    (hsub : List.Sublist (allPids s') (allPids s))
    (hnp : s.next_pid ≤ s'.next_pid) (h : Inv s) : Inv s' := by
  obtain ⟨hnd, hbound⟩ := h
  refine ⟨List.Nodup.sublist hsub hnd, ?_⟩
  intro x hx
  exact lt_of_lt_of_le (hbound x (hsub.subset hx)) hnp

theorem Inv_construct (p : Policy) (q m : Nat) : Inv (construct p q m) := by
  cases p <;> exact ⟨List.nodup_nil, fun x hx => absurd hx (List.not_mem_nil x)⟩

theorem Inv_new_process (s : SchedState) (prio : Nat) (h : Inv s) :
    Inv (new_process s prio).2 := by
  apply Inv_of_cons_perm _ rfl h
  simp only [new_process, allPids, readyPids, waitingPids, runningPids, List.map_append,
    List.map_cons, List.map_nil, List.append_assoc, List.singleton_append]
  exact List.perm_middle

theorem wakeSleepers_perm (s : SchedState) :
    List.Perm (allPids (wakeSleepers s)) (allPids s) := by
  unfold wakeSleepers
  split
  · have hcomp1 :
        ((fun p : ProcEntry => p.pid) ∘ (Prod.fst : ProcEntry × WaitKind → ProcEntry))
          = fun pw : ProcEntry × WaitKind => pw.1.pid := rfl
    have hcomp2 :
        ((fun pw : ProcEntry × WaitKind => pw.1.pid)
            ∘ fun pw : ProcEntry × WaitKind => (pw.1, elapseKind s.sleep_time pw.2))
          = fun pw : ProcEntry × WaitKind => pw.1.pid := rfl
    simp only [allPids, readyPids, waitingPids, runningPids, List.map_append, List.map_map,
      hcomp1, hcomp2, List.append_assoc]
    apply List.Perm.append_left
    rw [← List.append_assoc]
    apply List.Perm.append_right
    have hf := (List.filter_append_perm (wakesAt s.sleep_time) s.waiting_processes).map
      (fun pw : ProcEntry × WaitKind => pw.1.pid)
    simpa only [List.map_append] using hf
  · exact List.Perm.refl _

theorem Inv_scheduleCore (s : SchedState) (h : Inv s) : Inv (scheduleCore s).2 := by
  cases hrun : s.running with
  | some p =>
    rw [scheduleCore_running s p hrun]
    exact h
  | none =>
    cases hsel : selectReady s with
    | some qr =>
      obtain ⟨q, rest⟩ := qr
      rw [scheduleCore_dispatch s q rest hrun hsel]
      refine Inv_of_perm ?_ ?_ h
      · have hperm := (selectReady_perm s q rest hsel).map (fun p : ProcEntry => p.pid)
        simp only [List.map_cons] at hperm
        simp only [allPids, readyPids, waitingPids, runningPids, hrun, List.append_assoc,
          List.append_nil]
        refine (perm_append_snoc _ _ _).trans ?_
        exact hperm.append_right _
      · exact Nat.le_refl _
    | none =>
      rw [scheduleCore_nosel s hrun hsel]
      cases hms : minSleep s.waiting_processes with
      | some t => exact h
      | none =>
        cases hemp : s.waiting_processes.isEmpty
        · exact h
        · exact h

theorem requeueCaller_perm (t : SchedState) (p : ProcEntry) (rem : Nat) :
    List.Perm (allPids (requeueCaller t p rem))
      (p.pid :: (readyPids t ++ waitingPids t)) := by
  unfold requeueCaller
  split
  · simp only [allPids, readyPids, waitingPids, runningPids, List.append_assoc]
    exact perm_append_snoc _ _ _
  · simp only [allPids, readyPids, waitingPids, runningPids, List.map_append, List.map_cons,
      List.map_nil, List.append_nil]
    exact perm_snoc_append _ _ _

theorem Inv_stop (s : SchedState) (reason : StopReason) (h : Inv s) :
    Inv (stop s reason).2 := by
  cases hrun : s.running with
  | none =>
    rw [stop_none s reason hrun]
    exact h
  | some p =>
    cases reason with
    | expired =>
      rw [stop_expired s p hrun]
      refine Inv_of_perm ?_ ?_ h
      · simp only [allPids, readyPids, waitingPids, runningPids, hrun, List.map_append,
          List.map_cons, List.map_nil, List.append_assoc, List.append_nil,
          List.singleton_append]
        exact List.Perm.append_left _ (List.perm_append_singleton _ _).symm
      · exact Nat.le_refl _
    | syscall call rem =>
      cases call with
      | exit =>
        rw [stop_exit s p rem hrun]
        refine Inv_of_sublist ?_ ?_ h
        · simp only [allPids, readyPids, waitingPids, runningPids, hrun, List.append_assoc,
            List.append_nil]
          exact List.Sublist.append_left (List.sublist_append_left _ _) _
        · exact Nat.le_refl _
      | sleep t =>
        rw [stop_sleep s p t rem hrun]
        refine Inv_of_perm ?_ ?_ h
        · simp only [allPids, readyPids, waitingPids, runningPids, hrun, List.map_append,
            List.map_cons, List.map_nil, List.append_assoc, List.append_nil]
          exact List.Perm.refl _
        · exact Nat.le_refl _
      | wait e =>
        rw [stop_wait s p e rem hrun]
        refine Inv_of_perm ?_ ?_ h
        · simp only [allPids, readyPids, waitingPids, runningPids, hrun, List.map_append,
            List.map_cons, List.map_nil, List.append_assoc, List.append_nil]
          exact List.Perm.refl _
        · exact Nat.le_refl _
      | fork prio =>
        rw [stop_fork s p prio rem hrun]
        refine Inv_of_cons_perm ?_ ?_ h
        · refine (requeueCaller_perm _ _ _).trans ?_
          simp only [readyPids, waitingPids, allPids, runningPids, hrun, List.map_append,
            List.map_cons, List.map_nil, List.append_assoc, List.singleton_append]
          refine (List.Perm.cons _ List.perm_middle).trans ?_
          refine (List.Perm.swap _ _ _).trans ?_
          exact List.Perm.cons _ (perm_append_snoc _ _ _).symm
        · rw [requeueCaller_next_pid]
      | signal e =>
        rw [stop_signal s p e rem hrun]
        refine Inv_of_perm ?_ ?_ h
        · refine (requeueCaller_perm _ _ _).trans ?_
          have hcomp1 :
              ((fun p : ProcEntry => p.pid)
                  ∘ (Prod.fst : ProcEntry × WaitKind → ProcEntry))
                = fun pw : ProcEntry × WaitKind => pw.1.pid := rfl
          have hf : List.Perm
              (List.map (fun pw : ProcEntry × WaitKind => pw.1.pid)
                  (s.waiting_processes.filter (waitsOn e))
                ++ List.map (fun pw : ProcEntry × WaitKind => pw.1.pid)
                  (s.waiting_processes.filter (fun pw => !waitsOn e pw)))
              (List.map (fun pw : ProcEntry × WaitKind => pw.1.pid) s.waiting_processes) := by
            have hp := (List.filter_append_perm (waitsOn e) s.waiting_processes).map
              (fun pw : ProcEntry × WaitKind => pw.1.pid)
            simpa only [List.map_append] using hp
          simp only [readyPids, waitingPids, allPids, runningPids, hrun, List.map_append,
            List.map_map, hcomp1, List.append_assoc]
          refine (List.Perm.cons _ (List.Perm.append_left _ hf)).trans ?_
          exact (perm_append_snoc _ _ _).symm
        · rw [requeueCaller_next_pid]

/-- C7: in every state reachable through the facade from a freshly
constructed engine, at most one process occupies the running slot, no Pid
appears twice across the ready, waiting and running collections (so the
Ready and Waiting collections are disjoint and neither contains the
running process), and — since terminated processes are dropped from the
state — those collections together hold exactly the tracked processes
that are not running. -/
theorem c7_state_invariant (s : SchedState) (h : Reachable s) :
    (runningPids s).length ≤ 1 ∧
    (allPids s).Nodup ∧
    ∀ x ∈ readyPids s, x ∉ waitingPids s := by
  have hinv : Inv s := by
    induction h with
    | init p q m => exact Inv_construct p q m
    | step s c hs ih =>
      cases c with
      | newProc prio => exact Inv_new_process s prio ih
      | schedule =>
        exact Inv_scheduleCore (wakeSleepers s)
          (Inv_of_perm (wakeSleepers_perm s) (Nat.le_of_eq (wakeSleepers_next_pid s).symm) ih)
      | stop reason => exact Inv_stop s reason ih
  refine ⟨?_, hinv.1, ?_⟩
  · cases hr : s.running with
    | none => simp [runningPids, hr]
    | some p => simp [runningPids, hr]
  · have h1 : (readyPids s ++ waitingPids s ++ runningPids s).Nodup := hinv.1
    have h2 : (readyPids s ++ waitingPids s).Nodup :=
      List.Nodup.sublist (List.sublist_append_left _ _) h1
    intro x hx hxw
    exact (List.nodup_append.mp h2).2.2 hx hxw

/-- C7 witness: the state reached by `new_process` then `schedule()` on a
fresh Round Robin engine satisfies the invariant. -/
theorem c7_state_invariant_witness :
    (runningPids (step (step (construct .roundRobin 2 0) (.newProc 0)).2 .schedule).2).length
        ≤ 1 ∧
    (allPids (step (step (construct .roundRobin 2 0) (.newProc 0)).2 .schedule).2).Nodup ∧
    ∀ x ∈ readyPids (step (step (construct .roundRobin 2 0) (.newProc 0)).2 .schedule).2,
      x ∉ waitingPids (step (step (construct .roundRobin 2 0) (.newProc 0)).2 .schedule).2 :=
  c7_state_invariant _
    (Reachable.step _ .schedule
      (Reachable.step _ (.newProc 0) (Reachable.init .roundRobin 2 0)))

end ProcScheduler
